import Mathlib

/-!
Verification of the volunteer-booking dashboard core (`streamlit_dashboard.py`).

Strings are modelled by Lean `String` (a wrapper around `List Char`);
Python string helpers (`str.strip`, `str.lower`, `int(...)`, `str.isdigit`,
f-string decimal formatting) are modelled by explicit structural functions
below.  Pandas timestamps (`datetime_start`/`datetime_end`) are modelled as
`Option Int` — `none` is `NaT`, and any `NaT` comparison is `False`, as in
pandas.
-/

/-- Python `str.strip()`: drop whitespace from both ends. -/
def pyStrip (s : String) : String :=
  String.mk (((s.toList.dropWhile Char.isWhitespace).reverse.dropWhile Char.isWhitespace).reverse)

/-- Python `str.lower()` (ASCII scope). -/
def pyLower (s : String) : String :=
  String.mk (s.toList.map Char.toLower)

/-- Lexicographic comparison of char lists by code point. -/
def charListLt : List Char → List Char → Bool
  | [], [] => false
  | [], _ :: _ => true
  | _ :: _, [] => false
  | a :: as, b :: bs => if a < b then true else if b < a then false else charListLt as bs

/-- Python `<` on strings: lexicographic by code point. -/
def pyLt (a b : String) : Bool := charListLt a.toList b.toList

/-- The decimal digit character for `n < 10`. -/
def decDigit : Nat → Char
  | 0 => '0'
  | 1 => '1'
  | 2 => '2'
  | 3 => '3'
  | 4 => '4'
  | 5 => '5'
  | 6 => '6'
  | 7 => '7'
  | 8 => '8'
  | 9 => '9'
  | _ => '0'

/-- Fueled decimal printing, most significant digit first. -/
def decDigitsAux : Nat → Nat → List Char
  | 0, _ => []
  | fuel + 1, n =>
    if n < 10 then [decDigit n]
    else decDigitsAux fuel (n / 10) ++ [decDigit (n % 10)]

/-- Decimal digit string of `n` (the digits of Python `str(n)` / `f-string d`). -/
def decDigits (n : Nat) : List Char := decDigitsAux (n + 1) n

/-- Numeric value of a digit string, as Python `int` on an `isdigit` string. -/
def digitsVal (l : List Char) : Nat :=
  l.foldl (fun a c => 10 * a + (c.toNat - 48)) 0

/-- Python `f-string 03d`: the decimal digits of `n` zero-padded to width 3. -/
def pad3 (n : Nat) : List Char :=
  List.replicate (3 - (decDigits n).length) '0' ++ decDigits n

/-- A row of the Events table (columns of `events_june.csv`). -/
structure Event where
  event_id : String
  type : String
  school_name : String
  event_name : String
  grade : String
  num_students : Nat
  date : String
  start_time : String
  end_time : String
  required : Int
deriving DecidableEq

/-- The column `events["event_id"]` as a list of strings. -/
def idsOf (events : List Event) : List String := events.map (fun e => e.event_id)

/-- The comprehension `[eid for eid in existing_ids if eid.startswith(p)]`. -/
def filteredIds (events : List Event) (pfx : String) : List String :=
  (idsOf events).filter (fun eid => pfx.toList.isPrefixOf eid.toList)

/-- The comprehension `[int(eid[len(p):]) for eid in filtered if eid[len(p):].isdigit()]`. -/
def suffixNums (events : List Event) (pfx : String) : List Nat :=
  (filteredIds events pfx).filterMap (fun eid =>
    let suf := eid.toList.drop pfx.toList.length
    if suf ≠ [] ∧ suf.all Char.isDigit then some (digitsVal suf) else none)

/-- Source `generate_event_id(events, p)`: next number is
`max(nums) + 1` over the numeric suffixes of prefix-matching ids, else `1`,
formatted `f-string prefix next 03d`. -/
def generate_event_id (events : List Event) (pfx : String) : String :=
  let next_num :=
    if filteredIds events pfx = [] then 1
    else if suffixNums events pfx = [] then 1
    else (suffixNums events pfx).foldl Nat.max 0 + 1
  String.mk (pfx.toList ++ pad3 next_num)

theorem decDigit_isDigit {d : Nat} (h : d < 10) : (decDigit d).isDigit = true := by
  interval_cases d <;> decide

theorem decDigit_val {d : Nat} (h : d < 10) : (decDigit d).toNat - 48 = d := by
  interval_cases d <;> decide

theorem decDigitsAux_ne_nil (fuel n : Nat) : decDigitsAux (fuel + 1) n ≠ [] := by
  unfold decDigitsAux
  split
  · simp
  · simp

theorem decDigitsAux_all_digits :
    ∀ fuel n, (decDigitsAux fuel n).all Char.isDigit = true := by
  intro fuel
  induction fuel with
  | zero => intro n; rfl
  | succ fuel ih =>
    intro n
    unfold decDigitsAux
    split
    · next h => simp [decDigit_isDigit h]
    · next h =>
      rw [List.all_append, ih (n / 10)]
      simp [decDigit_isDigit (Nat.mod_lt n (by omega))]

theorem decDigitsAux_val :
    ∀ fuel n, n < fuel → digitsVal (decDigitsAux fuel n) = n := by
  intro fuel
  induction fuel with
  | zero => intro n h; omega
  | succ fuel ih =>
    intro n h
    unfold decDigitsAux
    split
    · next h10 =>
      simp [digitsVal, decDigit_val h10]
    · next h10 =>
      have hdiv : n / 10 < n := Nat.div_lt_self (by omega) (by omega)
      simp only [digitsVal, List.foldl_append, List.foldl_cons, List.foldl_nil]
      rw [show (decDigitsAux fuel (n / 10)).foldl (fun a c => 10 * a + (c.toNat - 48)) 0
            = digitsVal (decDigitsAux fuel (n / 10)) from rfl]
      rw [ih (n / 10) (by omega), decDigit_val (Nat.mod_lt n (by omega))]
      omega

theorem decDigits_val (n : Nat) : digitsVal (decDigits n) = n :=
  decDigitsAux_val (n + 1) n (Nat.lt_succ_self n)

theorem decDigits_ne_nil (n : Nat) : decDigits n ≠ [] :=
  decDigitsAux_ne_nil n n

theorem decDigits_all_digits (n : Nat) : (decDigits n).all Char.isDigit = true :=
  decDigitsAux_all_digits (n + 1) n

theorem digitsVal_replicate_zero (k : Nat) :
    List.foldl (fun a c => 10 * a + (c.toNat - 48)) 0 (List.replicate k '0') = 0 := by
  induction k with
  | zero => rfl
  | succ k ih => simpa [List.replicate_succ] using ih

theorem pad3_val (n : Nat) : digitsVal (pad3 n) = n := by
  unfold pad3
  show List.foldl _ 0 _ = n
  rw [List.foldl_append, digitsVal_replicate_zero]
  exact decDigits_val n

theorem pad3_ne_nil (n : Nat) : pad3 n ≠ [] := by
  unfold pad3
  intro h
  exact decDigits_ne_nil n (List.append_eq_nil.mp h).2

theorem pad3_all_digits (n : Nat) : (pad3 n).all Char.isDigit = true := by
  unfold pad3
  rw [List.all_append, decDigits_all_digits]
  simp [List.all_eq_true]

theorem le_foldl_max (l : List Nat) (a : Nat) : a ≤ l.foldl Nat.max a := by
  induction l generalizing a with
  | nil => exact Nat.le_refl a
  | cons x xs ih => exact Nat.le_trans (Nat.le_max_left a x) (ih (Nat.max a x))

theorem mem_le_foldl_max {b : Nat} :
    ∀ (l : List Nat) (a : Nat), b ∈ l → b ≤ l.foldl Nat.max a := by
  intro l
  induction l with
  | nil => intro a hb; cases hb
  | cons x xs ih =>
    intro a hb
    rcases List.mem_cons.mp hb with rfl | h
    · exact Nat.le_trans (Nat.le_max_right a b) (le_foldl_max xs (Nat.max a b))
    · exact ih (Nat.max a x) h

theorem foldl_max_le {m : Nat} :
    ∀ (l : List Nat) (a : Nat), a ≤ m → (∀ k ∈ l, k ≤ m) → l.foldl Nat.max a ≤ m := by
  intro l
  induction l with
  | nil => intro a ha _; exact ha
  | cons x xs ih =>
    intro a ha h
    exact ih (Nat.max a x) (Nat.max_le.mpr ⟨ha, h x (List.mem_cons_self x xs)⟩)
      (fun k hk => h k (List.mem_cons_of_mem x hk))

theorem isPrefixOf_append (l1 l2 : List Char) : l1.isPrefixOf (l1 ++ l2) = true := by
  induction l1 with
  | nil => simp [List.isPrefixOf]
  | cons a l ih => simp [List.isPrefixOf, ih]

theorem pad3_suffix_mem (events : List Event) (pfx : String) (n : Nat)
    (h : String.mk (pfx.toList ++ pad3 n) ∈ idsOf events) : n ∈ suffixNums events pfx := by
  apply List.mem_filterMap.mpr
  refine ⟨String.mk (pfx.toList ++ pad3 n), ?_, ?_⟩
  · exact List.mem_filter.mpr ⟨h, isPrefixOf_append _ _⟩
  · show (if _ ≠ [] ∧ _ then _ else _) = some n
    rw [show (String.mk (pfx.toList ++ pad3 n)).toList.drop pfx.toList.length = pad3 n by
      simp [String.toList]]
    rw [if_pos ⟨pad3_ne_nil n, pad3_all_digits n⟩, pad3_val]

theorem suffixNums_nil_of_filtered_nil (events : List Event) (pfx : String)
    (h : filteredIds events pfx = []) : suffixNums events pfx = [] := by
  unfold suffixNums
  rw [h]
  rfl

/-- The id produced by `generate_event_id` is never one of the existing ids. -/
theorem generate_event_id_not_mem (events : List Event) (pfx : String) :
    generate_event_id events pfx ∉ idsOf events := by
  intro hmem
  unfold generate_event_id at hmem
  have hN := pad3_suffix_mem events pfx _ hmem
  have hNne : suffixNums events pfx ≠ [] := List.ne_nil_of_mem hN
  have hFne : filteredIds events pfx ≠ [] := by
    intro hF
    exact hNne (suffixNums_nil_of_filtered_nil events pfx hF)
  rw [if_neg hFne, if_neg hNne] at hN
  have := mem_le_foldl_max (suffixNums events pfx) 0 hN
  omega

/-- Source lookup `type_prefix_map.get(event_type, "EVT")`. -/
def type_prefix_map (t : String) : String :=
  if t = "grg" then "GRG"
  else if t = "course" then "COR"
  else if t = "guiding" then "GUI"
  else "EVT"

/-- The list produced by `time_options(8, 17)` in the source: every half hour
from 08:00 to 17:00 inclusive, formatted `HH:MM`. -/
def time_options : List String :=
  ["08:00", "08:30", "09:00", "09:30", "10:00", "10:30", "11:00", "11:30",
   "12:00", "12:30", "13:00", "13:30", "14:00", "14:30", "15:00", "15:30",
   "16:00", "16:30", "17:00"]

/-- The raw form state of the Add Event page. -/
structure EventForm where
  event_type : String
  school_name : String
  event_name : String
  grade : String
  num_students : Nat
  date : String
  start_time : String
  end_time : String
  required : Int

/-- Widget section of `show_add_event`: non-`grg` categories take the school
name from the form, `grg` uses the fixed empty string. -/
def form_school_name (f : EventForm) : String :=
  if f.event_type ≠ "grg" then f.school_name else ""

/-- Widget section of `show_add_event`: `grg` is auto-named "GRG Session". -/
def form_event_name (f : EventForm) : String :=
  if f.event_type ≠ "grg" then f.event_name else "GRG Session"

/-- Widget section of `show_add_event`: grade field, empty for `grg`. -/
def form_grade (f : EventForm) : String :=
  if f.event_type ≠ "grg" then f.grade else ""

/-- Widget section of `show_add_event`: student count, 0 for `grg`. -/
def form_num_students (f : EventForm) : Nat :=
  if f.event_type ≠ "grg" then f.num_students else 0

/-- The Add Event button handler (`show_add_event`): an event name whose strip
is empty is rejected (`none`), otherwise the new event is appended and the new
id returned. -/
def add_event (events : List Event) (f : EventForm) : Option (String × List Event) :=
  if pyStrip (form_event_name f) = "" then none
  else
    some (generate_event_id events (type_prefix_map f.event_type),
      events ++ [{ event_id := generate_event_id events (type_prefix_map f.event_type),
                   type := f.event_type,
                   school_name := form_school_name f, event_name := form_event_name f,
                   grade := form_grade f, num_students := form_num_students f,
                   date := f.date, start_time := f.start_time, end_time := f.end_time,
                   required := f.required }])

/-- Run a sequence of Add Event submissions; collects the ids of the
successful ones and the final Events collection. -/
def run_add_events (events : List Event) : List EventForm → List String × List Event
  | [] => ([], events)
  | f :: fs =>
    match add_event events f with
    | none => run_add_events events fs
    | some (eid, events') =>
      let r := run_add_events events' fs
      (eid :: r.1, r.2)

theorem add_event_shape (events : List Event) (f : EventForm) (eid : String)
    (events' : List Event) (h : add_event events f = some (eid, events')) :
    idsOf events' = idsOf events ++ [eid] ∧ eid ∉ idsOf events := by
  unfold add_event at h
  split at h
  · exact absurd h (by simp)
  · simp only [Option.some.injEq, Prod.mk.injEq] at h
    obtain ⟨rfl, rfl⟩ := h
    constructor
    · simp [idsOf]
    · exact generate_event_id_not_mem events _

theorem run_add_events_spec :
    ∀ (forms : List EventForm) (events : List Event),
      (run_add_events events forms).1.Nodup ∧
      ∀ s ∈ (run_add_events events forms).1, s ∉ idsOf events := by
  intro forms
  induction forms with
  | nil => exact fun events => ⟨List.nodup_nil, fun s hs => absurd hs (by simp [run_add_events])⟩
  | cons f fs ih =>
    intro events
    cases h : add_event events f with
    | none => simpa [run_add_events, h] using ih events
    | some p =>
      obtain ⟨eid, events'⟩ := p
      obtain ⟨hids, hnew⟩ := add_event_shape events f eid events' h
      have ih' := ih events'
      rw [show run_add_events events (f :: fs) = (eid :: (run_add_events events' fs).1,
            (run_add_events events' fs).2) by simp [run_add_events, h]]
      constructor
      · refine List.nodup_cons.mpr ⟨?_, ih'.1⟩
        intro hmem
        apply ih'.2 eid hmem
        rw [hids]
        exact List.mem_append.mpr (Or.inr (List.mem_singleton_self eid))
      · intro s hs
        rcases List.mem_cons.mp hs with rfl | hs'
        · exact hnew
        · intro hsIn
          exact ih'.2 s hs' (by rw [hids]; exact List.mem_append.mpr (Or.inl hsIn))

/-- C1: for every sequence of `add_event` calls starting from any Events
collection, the returned event ids are pairwise distinct, and an id already
present in the collection is never returned — the generator only looks
forward from the maximum numeric suffix, so this holds even when smaller ids
are absent. -/
theorem add_event_ids_unique (events : List Event) (forms : List EventForm) :
    (run_add_events events forms).1.Nodup ∧
    ∀ s ∈ (run_add_events events forms).1, s ∉ idsOf events :=
  run_add_events_spec forms events

-- sample events used by concrete instances
def ev_grg001 : Event :=
  { event_id := "GRG001", type := "grg", school_name := "", event_name := "GRG Session",
    grade := "", num_students := 0, date := "2024-06-01", start_time := "10:00",
    end_time := "11:00", required := 1 }

def ev_grg003 : Event :=
  { ev_grg001 with event_id := "GRG003" }

def ev_grgfoo : Event :=
  { ev_grg001 with event_id := "GRGfoo" }

def form_grg : EventForm :=
  { event_type := "grg", school_name := "", event_name := "", grade := "",
    num_students := 0, date := "2024-06-02", start_time := "10:00",
    end_time := "10:30", required := 1 }

/-- Witness for C1 at a concrete input: two `grg` submissions on top of a
collection already holding GRG001 return fresh, distinct ids. -/
theorem add_event_ids_unique_witness :
    (run_add_events [ev_grg001] [form_grg, form_grg]).1.Nodup ∧
    "GRG002" ∉ idsOf [ev_grg001] :=
  ⟨(add_event_ids_unique [ev_grg001] [form_grg, form_grg]).1,
   (add_event_ids_unique [ev_grg001] [form_grg, form_grg]).2 "GRG002" (by decide)⟩

/-- C2: `generate_event_id` returns the prefix concatenated with
(max numeric suffix) + 1 zero-padded to 3 digits, or the prefix with `001`
when no prefix-matching id has a numeric suffix; non-numeric suffixes are
ignored without error.  In particular `{GRG001, GRG003}` yields `GRG004`. -/
theorem generate_event_id_spec :
    (∀ (events : List Event) (pfx : String),
      (suffixNums events pfx = [] →
        generate_event_id events pfx = String.mk (pfx.toList ++ pad3 1)) ∧
      (∀ m ∈ suffixNums events pfx, (∀ k ∈ suffixNums events pfx, k ≤ m) →
        generate_event_id events pfx = String.mk (pfx.toList ++ pad3 (m + 1)))) ∧
    generate_event_id [ev_grg001, ev_grg003] "GRG" = "GRG004" ∧
    generate_event_id [] "GRG" = "GRG001" ∧
    generate_event_id [ev_grgfoo] "GRG" = "GRG001" := by
  refine ⟨fun events pfx => ⟨?_, ?_⟩, by decide, by decide, by decide⟩
  · intro h
    unfold generate_event_id
    by_cases hF : filteredIds events pfx = [] <;> simp [hF, h]
  · intro m hm hk
    have hNne := List.ne_nil_of_mem hm
    have hFne : filteredIds events pfx ≠ [] :=
      fun hF => hNne (suffixNums_nil_of_filtered_nil events pfx hF)
    have hfold : (suffixNums events pfx).foldl Nat.max 0 = m :=
      Nat.le_antisymm (foldl_max_le _ 0 (Nat.zero_le m) hk) (mem_le_foldl_max _ 0 hm)
    unfold generate_event_id
    rw [if_neg hFne, if_neg hNne, hfold]

/-- Witness for C2: the max-plus-one branch applied at `{GRG001, GRG003}`. -/
theorem generate_event_id_spec_witness :
    generate_event_id [ev_grg001, ev_grg003] "GRG" = String.mk ("GRG".toList ++ pad3 (3 + 1)) :=
  (generate_event_id_spec.1 [ev_grg001, ev_grg003] "GRG").2 3 (by decide) (by decide)

/-- C9: the Add Event page offers only end times strictly after the chosen
start time (`end_times_filtered`), and the handler rejects an event name that
strips to empty (with `grg` auto-named "GRG Session"), so every appended
event has a non-empty name and `start_time < end_time`. -/
theorem add_event_invariants (events : List Event) (f : EventForm)
    (hend : f.end_time ∈ time_options.filter (fun t => pyLt f.start_time t))
    (eid : String) (events' : List Event)
    (h : add_event events f = some (eid, events')) :
    ∃ e : Event, events' = events ++ [e] ∧
      pyStrip e.event_name ≠ "" ∧ e.event_name ≠ "" ∧
      pyLt e.start_time e.end_time = true ∧
      (f.event_type = "grg" → e.event_name = "GRG Session") := by
  unfold add_event at h
  split at h
  · exact absurd h (by simp)
  · next hname =>
    simp only [Option.some.injEq, Prod.mk.injEq] at h
    obtain ⟨rfl, rfl⟩ := h
    refine ⟨_, rfl, hname, ?_, ?_, ?_⟩
    · intro h0
      apply hname
      show pyStrip (form_event_name f) = ""
      rw [show form_event_name f = "" from h0]
      rfl
    · show pyLt f.start_time f.end_time = true
      exact (List.mem_filter.mp hend).2
    · intro hg
      show form_event_name f = "GRG Session"
      simp [form_event_name, hg]

-- sample Add Event form of type course, used by the C9 witness
def form_course : EventForm :=
  { event_type := "course", school_name := "Hill School", event_name := "Trip",
    grade := "3", num_students := 10, date := "2024-06-03", start_time := "10:00",
    end_time := "10:30", required := 2 }

def ev_cor001 : Event :=
  { event_id := "COR001", type := "course", school_name := "Hill School",
    event_name := "Trip", grade := "3", num_students := 10, date := "2024-06-03",
    start_time := "10:00", end_time := "10:30", required := 2 }

/-- Witness for C9 at a concrete successful submission. -/
theorem add_event_invariants_witness :
    ∃ e : Event, [ev_cor001] = [] ++ [e] ∧
      pyStrip e.event_name ≠ "" ∧ e.event_name ≠ "" ∧
      pyLt e.start_time e.end_time = true ∧
      (form_course.event_type = "grg" → e.event_name = "GRG Session") :=
  add_event_invariants [] form_course (by decide) "COR001" [ev_cor001] (by decide)

/-- A row of the Assignments table (columns of `assignments_june.csv`). -/
structure Assignment where
  event_id : String
  volunteer : String
deriving DecidableEq

/-- Outcome of the Assign Volunteer button: the duplicate warning, or the
success path that persists the appended collection. -/
inductive AssignResult where
  | duplicateWarning
  | success
deriving DecidableEq

/-- The Assign Volunteer button handler (`show_add_assignment`): if a row with
the same `(event_id, volunteer)` pair exists, warn and leave the collection
unchanged; otherwise append the new assignment.  The source performs no
check of `event_id` against the Events collection here — the page only offers
existing events in its selectbox. -/
def add_assignment (assignments : List Assignment) (event_id volunteer : String) :
    AssignResult × List Assignment :=
  if !(assignments.filter
        (fun a => a.event_id == event_id && a.volunteer == volunteer)).isEmpty then
    (.duplicateWarning, assignments)
  else
    (.success, assignments ++ [{ event_id := event_id, volunteer := volunteer }])

/-- C6: whenever the `(event_id, volunteer)` pair is already present,
`add_assignment` reports the duplicate and returns the collection unchanged
(same size and contents). -/
theorem add_assignment_duplicate_rejected (assignments : List Assignment)
    (event_id volunteer : String)
    (h : ({ event_id := event_id, volunteer := volunteer } : Assignment) ∈ assignments) :
    add_assignment assignments event_id volunteer = (.duplicateWarning, assignments) := by
  have hmem : ({ event_id := event_id, volunteer := volunteer } : Assignment) ∈
      assignments.filter (fun a => a.event_id == event_id && a.volunteer == volunteer) :=
    List.mem_filter.mpr ⟨h, by simp⟩
  have hne := List.ne_nil_of_mem hmem
  unfold add_assignment
  rw [if_pos (by simpa using hne)]

/-- Witness for C6: a second `add_assignment(GRG001, Alice)` is rejected and
the one-row collection is unchanged. -/
theorem add_assignment_duplicate_rejected_witness :
    add_assignment [{ event_id := "GRG001", volunteer := "Alice" }] "GRG001" "Alice" =
      (.duplicateWarning, [{ event_id := "GRG001", volunteer := "Alice" }]) :=
  add_assignment_duplicate_rejected [{ event_id := "GRG001", volunteer := "Alice" }]
    "GRG001" "Alice" (by decide)

/-- Counterexample to C7: with an Events collection holding only GRG001, the
id EVT999 is unknown, yet `add_assignment` does not fail with any
unknown-event error — it succeeds and appends, changing the stored
collection. -/
theorem add_assignment_unknown_event_counterexample :
    "EVT999" ∉ idsOf [ev_grg001] ∧
    add_assignment [] "EVT999" "Alice" =
      (.success, [{ event_id := "EVT999", volunteer := "Alice" }]) ∧
    ([{ event_id := "EVT999", volunteer := "Alice" }] : List Assignment) ≠ [] := by
  decide

/-- C7 amended: `add_assignment` performs no event-existence check at all —
for any `event_id`, known or unknown, a non-duplicate pair is appended and
reported as success; unknown ids are kept out only by the page offering
existing events in its selectbox. -/
theorem add_assignment_no_event_check (assignments : List Assignment)
    (event_id volunteer : String)
    (h : ∀ a ∈ assignments, ¬(a.event_id = event_id ∧ a.volunteer = volunteer)) :
    add_assignment assignments event_id volunteer =
      (.success, assignments ++ [{ event_id := event_id, volunteer := volunteer }]) := by
  have hnil : assignments.filter
      (fun a => a.event_id == event_id && a.volunteer == volunteer) = [] := by
    apply List.filter_eq_nil_iff.mpr
    intro a ha
    have := h a ha
    simp only [Bool.and_eq_true, beq_iff_eq]
    tauto
  unfold add_assignment
  rw [hnil]
  rfl

/-- Witness for C7's amended statement: an unknown event id is appended. -/
theorem add_assignment_no_event_check_witness :
    add_assignment [] "EVT999" "Bob" =
      (.success, [{ event_id := "EVT999", volunteer := "Bob" }]) :=
  add_assignment_no_event_check [] "EVT999" "Bob" (by simp)

/-- A row of the required-vs-assigned reconciliation view. -/
structure ReconRow where
  event_id : String
  required : Int
  assigned : Nat
  still_required : Int
deriving DecidableEq

/-- The reconciliation view (`show_event_summary` lines 336-341 and
`show_event_details` lines 385-388): `assigned` is the number of assignment
rows with the event's id, and `still_required` is `required - assigned`
floored at zero (`x if x > 0 else 0`). -/
def reconcile (events : List Event) (assignments : List Assignment) : List ReconRow :=
  events.map (fun e =>
    { event_id := e.event_id, required := e.required,
      assigned := (assignments.filter (fun a => a.event_id == e.event_id)).length,
      still_required :=
        if e.required - ((assignments.filter (fun a => a.event_id == e.event_id)).length : Int) > 0
        then e.required - ((assignments.filter (fun a => a.event_id == e.event_id)).length : Int)
        else 0 })

-- an event requiring 2 volunteers, and five assignments to it
def ev_req2 : Event := { ev_grg001 with required := 2 }

def as5 : List Assignment :=
  [{ event_id := "GRG001", volunteer := "V1" }, { event_id := "GRG001", volunteer := "V2" },
   { event_id := "GRG001", volunteer := "V3" }, { event_id := "GRG001", volunteer := "V4" },
   { event_id := "GRG001", volunteer := "V5" }]

-- the reconciliation row the over-assigned event should report
def r5 : ReconRow :=
  { event_id := "GRG001", required := 2, assigned := 5, still_required := 0 }

/-- C8: every reconciliation row reports `assigned` as the count of
assignment rows with the event's id and `still_required` as
`max(required - assigned, 0)`, which is never negative; for `required = 2`
and 5 assignments the row is `assigned = 5, still_required = 0`. -/
theorem reconcile_correct :
    (∀ (events : List Event) (assignments : List Assignment) (r : ReconRow),
      r ∈ reconcile events assignments →
      ∃ e ∈ events, r.event_id = e.event_id ∧
        r.assigned = (assignments.filter (fun a => a.event_id == e.event_id)).length ∧
        r.still_required = max (e.required - (r.assigned : Int)) 0 ∧
        0 ≤ r.still_required) ∧
    reconcile [ev_req2] as5 = [r5] := by
  constructor
  · intro events assignments r hr
    obtain ⟨e, he, rfl⟩ := List.mem_map.mp hr
    refine ⟨e, he, rfl, rfl, ?_, ?_⟩
    · show (if e.required - ((assignments.filter
          (fun a => a.event_id == e.event_id)).length : Int) > 0
        then e.required - ((assignments.filter
          (fun a => a.event_id == e.event_id)).length : Int) else 0) =
        max (e.required - ((assignments.filter
          (fun a => a.event_id == e.event_id)).length : Int)) 0
      split <;> omega
    · show (0 : Int) ≤ (if e.required - ((assignments.filter
          (fun a => a.event_id == e.event_id)).length : Int) > 0
        then e.required - ((assignments.filter
          (fun a => a.event_id == e.event_id)).length : Int) else 0)
      split <;> omega
  · decide

/-- Witness for C8: the general row property applied to the concrete
over-assigned event. -/
theorem reconcile_correct_witness :
    ∃ e ∈ [ev_req2], r5.event_id = e.event_id ∧
      r5.assigned = (as5.filter (fun a => a.event_id == e.event_id)).length ∧
      r5.still_required = max (e.required - (r5.assigned : Int)) 0 ∧
      (0 : Int) ≤ r5.still_required :=
  reconcile_correct.1 [ev_req2] as5 r5 (by decide)

/-- A row of the joined Assignment-Event view (`merged_df`).  The computed
timestamps are `Option Int`: `none` models pandas `NaT` (the date/time
strings failed to parse). -/
structure ScheduleEntry where
  event_id : String
  volunteer : String
  type : String
  date : String
  start_time : String
  end_time : String
  datetime_start : Option Int
  datetime_end : Option Int
deriving DecidableEq

/-- pandas `>` on timestamps: any comparison involving `NaT` is `False`. -/
def pdGt (a b : Option Int) : Bool :=
  match a, b with
  | some x, some y => decide (y < x)
  | _, _ => false

/-- The key order of `sort_values(by="datetime_start")` (`NaT` sorts last). -/
def pdStartLe (a b : Option Int) : Bool :=
  match a, b with
  | some x, some y => decide (x ≤ y)
  | some _, none => true
  | none, some _ => false
  | none, none => true

/-- Stable insertion into a sorted list. -/
def insertSorted {α : Type} (le : α → α → Bool) (x : α) : List α → List α
  | [] => [x]
  | y :: ys => if le x y then x :: y :: ys else y :: insertSorted le x ys

/-- Stable sort (insertion sort), modelling `sort_values`. -/
def sortBy {α : Type} (le : α → α → Bool) (l : List α) : List α :=
  l.foldr (insertSorted le) []

/-- pandas `Series.unique()`: distinct values in first-occurrence order. -/
def pdUnique {α : Type} [DecidableEq α] (l : List α) : List α :=
  l.foldl (fun acc v => if v ∈ acc then acc else acc ++ [v]) []

/-- A conflict message, carrying exactly the values the source interpolates
into its f-strings. -/
inductive Conflict where
  | overlap (volunteer date pstart cstart ptype ctype : String)
  | overbook (event_id date : String) (count : Nat)
deriving DecidableEq

/-- The f-string texts of the two conflict messages in `show_dashboard`. -/
def render_conflict : Conflict → String
  | .overlap name pdate pstart cstart ptype ctype =>
      name ++ " has overlapping bookings on " ++ pdate ++ " from " ++ pstart ++
        " to " ++ cstart ++ " (" ++ ptype ++ " → " ++ ctype ++ ")"
  | .overbook eid d c =>
      "GRG slot " ++ eid ++ " on " ++ d ++ " is overbooked with " ++
        String.mk (decDigits c) ++ " volunteers (max 2 allowed)"

/-- Source `sub = filtered_df[filtered_df["volunteer"] == name].sort_values(by="datetime_start")`. -/
def sortedEntriesFor (entries : List ScheduleEntry) (name : String) : List ScheduleEntry :=
  sortBy (fun a b => pdStartLe a.datetime_start b.datetime_start)
    (entries.filter (fun e => e.volunteer == name))

/-- The adjacent-pair overlap scan (`for i in range(1, len(sub))`): emit a
conflict when `prev.datetime_end > curr.datetime_start`. -/
def overlapConflictsFor (entries : List ScheduleEntry) (name : String) : List Conflict :=
  ((sortedEntriesFor entries name).zip (sortedEntriesFor entries name).tail).filterMap
    (fun pc =>
      if pdGt pc.1.datetime_end pc.2.datetime_start then
        some (.overlap name pc.1.date pc.1.start_time pc.2.start_time pc.1.type pc.2.type)
      else none)

/-- The overlap loop over `filtered_df["volunteer"].unique()`. -/
def overlapConflicts (entries : List ScheduleEntry) : List Conflict :=
  (pdUnique (entries.map (fun e => e.volunteer))).flatMap
    (fun name => overlapConflictsFor entries name)

/-- Source `grg_df = filtered_df[filtered_df["type"].str.lower() == "grg"]`. -/
def grgEntries (entries : List ScheduleEntry) : List ScheduleEntry :=
  entries.filter (fun e => pyLower e.type == "grg")

/-- Lexicographic order on `(event_id, date)` keys: pandas `groupby` iterates
groups in sorted key order. -/
def keyLe (a b : String × String) : Bool :=
  pyLt a.1 b.1 || (a.1 == b.1 && (pyLt a.2 b.2 || a.2 == b.2))

/-- The group keys of `grg_df.groupby(["event_id", "date"])`. -/
def grgKeys (entries : List ScheduleEntry) : List (String × String) :=
  sortBy keyLe (pdUnique ((grgEntries entries).map (fun e => (e.event_id, e.date))))

/-- The count `.volunteer.nunique()` within the group of key `k`. -/
def nuniqueVolunteers (entries : List ScheduleEntry) (k : String × String) : Nat :=
  (pdUnique (((grgEntries entries).filter
    (fun e => e.event_id == k.1 && e.date == k.2)).map (fun e => e.volunteer))).length

/-- The capacity scan: one overbooking conflict per group with more than two
distinct volunteers. -/
def capacityConflicts (entries : List ScheduleEntry) : List Conflict :=
  (grgKeys entries).filterMap (fun k =>
    if nuniqueVolunteers entries k > 2 then
      some (.overbook k.1 k.2 (nuniqueVolunteers entries k))
    else none)

/-- The dashboard's date-range filter at its default full range keeps exactly
the rows whose `datetime_start` parsed: a `NaT` start compares `False` against
both range bounds and the row is dropped before the conflict checker runs. -/
def startFiltered (entries : List ScheduleEntry) : List ScheduleEntry :=
  entries.filter (fun e => e.datetime_start.isSome)

/-- The conflict checker of `show_dashboard`: overlap conflicts (per volunteer
in first-occurrence order, chronological within a volunteer), then capacity
conflicts (in sorted group order). -/
def find_conflicts (entries : List ScheduleEntry) : List Conflict :=
  overlapConflicts (startFiltered entries) ++ capacityConflicts (startFiltered entries)

/-- The user-facing message strings, as appended to `conflicts` in the source. -/
def find_conflict_messages (entries : List ScheduleEntry) : List String :=
  (find_conflicts entries).map render_conflict

-- Three same-volunteer entries with a containment pattern: A runs 10:00-13:00
-- and contains both B (11:00-11:30) and C (12:00-12:30).
def entry_A : ScheduleEntry :=
  { event_id := "COR001", volunteer := "V", type := "course", date := "2024-06-01",
    start_time := "10:00", end_time := "13:00",
    datetime_start := some 600, datetime_end := some 780 }

def entry_B : ScheduleEntry :=
  { event_id := "COR002", volunteer := "V", type := "course", date := "2024-06-01",
    start_time := "11:00", end_time := "11:30",
    datetime_start := some 660, datetime_end := some 690 }

def entry_C : ScheduleEntry :=
  { event_id := "COR003", volunteer := "V", type := "course", date := "2024-06-01",
    start_time := "12:00", end_time := "12:30",
    datetime_start := some 720, datetime_end := some 750 }

/-- C3: the overlap check tests only adjacent pairs in start-time order, and
that is insufficient: here A (10:00-13:00) overlaps C (12:00-12:30) in time,
yet `find_conflicts` emits only the A-B conflict and none for the pair A-C. -/
theorem adjacent_overlap_check_misses_pair :
    pdGt entry_A.datetime_end entry_C.datetime_start = true ∧
    find_conflicts [entry_A, entry_B, entry_C] =
      [.overlap "V" "2024-06-01" "10:00" "11:00" "course" "course"] ∧
    Conflict.overlap "V" "2024-06-01" "10:00" "12:00" "course" "course" ∉
      find_conflicts [entry_A, entry_B, entry_C] := by
  decide

theorem insertSorted_perm {α : Type} (le : α → α → Bool) (x : α) :
    ∀ l : List α, (insertSorted le x l).Perm (x :: l) := by
  intro l
  induction l with
  | nil => exact List.Perm.refl _
  | cons y ys ih =>
    unfold insertSorted
    split
    · exact List.Perm.refl _
    · exact (List.Perm.cons y ih).trans (List.Perm.swap x y ys)

theorem sortBy_perm {α : Type} (le : α → α → Bool) :
    ∀ l : List α, (sortBy le l).Perm l := by
  intro l
  induction l with
  | nil => exact List.Perm.refl _
  | cons x xs ih =>
    show (insertSorted le x (sortBy le xs)).Perm (x :: xs)
    exact (insertSorted_perm le x (sortBy le xs)).trans (List.Perm.cons x ih)

theorem sortBy_mem {α : Type} (le : α → α → Bool) (l : List α) (a : α) :
    a ∈ sortBy le l ↔ a ∈ l :=
  (sortBy_perm le l).mem_iff

theorem sortBy_nodup {α : Type} (le : α → α → Bool) (l : List α) (h : l.Nodup) :
    (sortBy le l).Nodup :=
  ((sortBy_perm le l).nodup_iff).mpr h

theorem pdUnique_loop_mem {α : Type} [DecidableEq α] (x : α) :
    ∀ (l acc : List α),
      (x ∈ l.foldl (fun acc v => if v ∈ acc then acc else acc ++ [v]) acc ↔
        x ∈ acc ∨ x ∈ l) := by
  intro l
  induction l with
  | nil => intro acc; simp
  | cons y ys ih =>
    intro acc
    show x ∈ ys.foldl _ (if y ∈ acc then acc else acc ++ [y]) ↔ _
    rw [ih]
    by_cases hy : y ∈ acc
    · rw [if_pos hy]
      constructor
      · rintro (h | h)
        · exact Or.inl h
        · exact Or.inr (List.mem_cons_of_mem y h)
      · rintro (h | h)
        · exact Or.inl h
        · rcases List.mem_cons.mp h with rfl | h
          · exact Or.inl hy
          · exact Or.inr h
    · rw [if_neg hy]
      simp only [List.mem_append, List.mem_singleton, List.mem_cons]
      tauto

theorem pdUnique_mem {α : Type} [DecidableEq α] (l : List α) (x : α) :
    x ∈ pdUnique l ↔ x ∈ l := by
  have h := pdUnique_loop_mem x l []
  simpa [pdUnique] using h

theorem pdUnique_loop_nodup {α : Type} [DecidableEq α] :
    ∀ (l acc : List α), acc.Nodup →
      (l.foldl (fun acc v => if v ∈ acc then acc else acc ++ [v]) acc).Nodup := by
  intro l
  induction l with
  | nil => intro acc h; exact h
  | cons y ys ih =>
    intro acc h
    show (ys.foldl _ (if y ∈ acc then acc else acc ++ [y])).Nodup
    by_cases hy : y ∈ acc
    · rw [if_pos hy]; exact ih acc h
    · rw [if_neg hy]
      exact ih (acc ++ [y])
        (((List.perm_append_singleton y acc).nodup_iff).mpr (List.nodup_cons.mpr ⟨hy, h⟩))

theorem pdUnique_nodup {α : Type} [DecidableEq α] (l : List α) : (pdUnique l).Nodup :=
  pdUnique_loop_nodup l [] List.nodup_nil

theorem pdUnique_loop_const {α : Type} [DecidableEq α] (v : α) :
    ∀ (l acc : List α), (∀ x ∈ l, x = v) → (∀ x ∈ acc, x = v) → acc.length ≤ 1 →
      (l.foldl (fun acc v => if v ∈ acc then acc else acc ++ [v]) acc).length ≤ 1 := by
  intro l
  induction l with
  | nil => intro acc _ _ hlen; exact hlen
  | cons y ys ih =>
    intro acc hl hacc hlen
    show (ys.foldl _ (if y ∈ acc then acc else acc ++ [y])).length ≤ 1
    have hy : y = v := hl y (List.mem_cons_self y ys)
    have hl' : ∀ x ∈ ys, x = v := fun x hx => hl x (List.mem_cons_of_mem y hx)
    by_cases hmem : y ∈ acc
    · rw [if_pos hmem]; exact ih acc hl' hacc hlen
    · rw [if_neg hmem]
      have hnil : acc = [] := by
        cases acc with
        | nil => rfl
        | cons a t =>
          exact absurd (by rw [hy, ← hacc a (List.mem_cons_self a t)]; exact
            List.mem_cons_self a t) hmem
      subst hnil
      exact ih [y] hl' (fun x hx => by rw [List.mem_singleton.mp hx]; exact hy) (by simp)

theorem pdUnique_length_le_one {α : Type} [DecidableEq α] (v : α) (l : List α)
    (h : ∀ x ∈ l, x = v) : (pdUnique l).length ≤ 1 :=
  pdUnique_loop_const v l [] h (by simp) (by simp)

theorem capacityConflicts_eq_nil_of_single_volunteer (entries : List ScheduleEntry)
    (v : String) (h : ∀ e ∈ entries, e.volunteer = v) : capacityConflicts entries = [] := by
  unfold capacityConflicts
  apply List.filterMap_eq_nil_iff.mpr
  intro k _
  have hle : nuniqueVolunteers entries k ≤ 1 := by
    apply pdUnique_length_le_one v
    intro x hx
    obtain ⟨e, he, rfl⟩ := List.mem_map.mp hx
    exact h e (List.mem_of_mem_filter (List.mem_of_mem_filter he))
  exact if_neg (by omega)

-- Bob's two entries of the overlap-detection scenario, and a three-entry
-- chain where both adjacent pairs overlap.
def entry_bob_A : ScheduleEntry :=
  { event_id := "COR001", volunteer := "Bob", type := "course", date := "2024-06-01",
    start_time := "10:00", end_time := "11:00",
    datetime_start := some 600, datetime_end := some 660 }

def entry_bob_B : ScheduleEntry :=
  { event_id := "COR002", volunteer := "Bob", type := "course", date := "2024-06-01",
    start_time := "10:30", end_time := "11:30",
    datetime_start := some 630, datetime_end := some 690 }

def entry_W1 : ScheduleEntry :=
  { event_id := "COR001", volunteer := "W", type := "course", date := "2024-06-02",
    start_time := "10:00", end_time := "11:00",
    datetime_start := some 600, datetime_end := some 660 }

def entry_W2 : ScheduleEntry :=
  { event_id := "COR002", volunteer := "W", type := "course", date := "2024-06-02",
    start_time := "10:30", end_time := "11:30",
    datetime_start := some 630, datetime_end := some 690 }

def entry_W3 : ScheduleEntry :=
  { event_id := "COR003", volunteer := "W", type := "course", date := "2024-06-02",
    start_time := "11:15", end_time := "12:15",
    datetime_start := some 675, datetime_end := some 735 }

/-- Predicate picking out the overlap conflicts that name volunteer `v`. -/
def isOverlapOf (v : String) : Conflict → Bool
  | .overlap name _ _ _ _ _ => name == v
  | .overbook _ _ _ => false

theorem mem_overlapConflictsFor_shape (l : List ScheduleEntry) (name : String)
    (x : Conflict) (hx : x ∈ overlapConflictsFor l name) :
    ∃ a b c d e, x = Conflict.overlap name a b c d e := by
  obtain ⟨pc, -, heq⟩ := List.mem_filterMap.mp hx
  split at heq
  · simp only [Option.some.injEq] at heq
    exact ⟨_, _, _, _, _, heq.symm⟩
  · exact absurd heq (by simp)

theorem mem_capacityConflicts_shape (l : List ScheduleEntry) (x : Conflict)
    (hx : x ∈ capacityConflicts l) : ∃ eid d n, x = Conflict.overbook eid d n := by
  obtain ⟨k, -, heq⟩ := List.mem_filterMap.mp hx
  split at heq
  · simp only [Option.some.injEq] at heq
    exact ⟨_, _, _, heq.symm⟩
  · exact absurd heq (by simp)

theorem overlapConflictsFor_length (l : List ScheduleEntry) (name : String) :
    (overlapConflictsFor l name).length =
      ((sortedEntriesFor l name).zip (sortedEntriesFor l name).tail).countP
        (fun pc => pdGt pc.1.datetime_end pc.2.datetime_start) := by
  unfold overlapConflictsFor
  generalize (sortedEntriesFor l name).zip (sortedEntriesFor l name).tail = pairs
  induction pairs with
  | nil => rfl
  | cons pc pairs ih =>
    rw [List.filterMap_cons, List.countP_cons]
    by_cases h : pdGt pc.1.datetime_end pc.2.datetime_start = true
    · simp only [h, if_pos trivial, if_true, List.length_cons, ih]
    · simp only [h, if_false, Bool.false_eq_true, ite_false, ih]
      omega

theorem flatMap_ite_mem {α β : Type} [DecidableEq α] (v : α) (L : List β) :
    ∀ names : List α, names.Nodup →
      names.flatMap (fun w => if w = v then L else []) = if v ∈ names then L else [] := by
  intro names
  induction names with
  | nil => intro _; rfl
  | cons w ws ih =>
    intro hnd
    obtain ⟨hw, hnd'⟩ := List.nodup_cons.mp hnd
    rw [List.flatMap_cons, ih hnd']
    by_cases hwv : w = v
    · subst hwv
      rw [if_pos rfl, if_neg hw, if_pos (List.mem_cons_self w ws)]
      simp
    · rw [if_neg hwv]
      by_cases hv : v ∈ ws
      · rw [if_pos hv, if_pos (List.mem_cons_of_mem w hv)]
        simp
      · rw [if_neg hv, if_neg (fun hmem => by
          rcases List.mem_cons.mp hmem with h | h
          · exact hwv h.symm
          · exact hv h)]
        simp

theorem filter_overlapConflicts (l : List ScheduleEntry) (v : String) :
    (overlapConflicts l).filter (isOverlapOf v) =
      if v ∈ pdUnique (l.map (fun e => e.volunteer)) then overlapConflictsFor l v
      else [] := by
  unfold overlapConflicts
  rw [List.filter_flatMap]
  have hfun : ∀ w, (overlapConflictsFor l w).filter (isOverlapOf v) =
      if w = v then overlapConflictsFor l v else [] := by
    intro w
    by_cases hwv : w = v
    · subst hwv
      rw [if_pos rfl]
      apply List.filter_eq_self.mpr
      intro x hx
      obtain ⟨a, b, c, d, e, rfl⟩ := mem_overlapConflictsFor_shape l w x hx
      simp [isOverlapOf]
    · rw [if_neg hwv]
      apply List.filter_eq_nil_iff.mpr
      intro x hx
      obtain ⟨a, b, c, d, e, rfl⟩ := mem_overlapConflictsFor_shape l w x hx
      simp [isOverlapOf, hwv]
  simp only [hfun]
  exact flatMap_ite_mem v (overlapConflictsFor l v) _ (pdUnique_nodup _)

theorem filter_capacityConflicts (l : List ScheduleEntry) (v : String) :
    (capacityConflicts l).filter (isOverlapOf v) = [] := by
  apply List.filter_eq_nil_iff.mpr
  intro x hx
  obtain ⟨eid, d, n, rfl⟩ := mem_capacityConflicts_shape l x hx
  simp [isOverlapOf]

theorem filter_find_conflicts (entries : List ScheduleEntry) (v : String) :
    (find_conflicts entries).filter (isOverlapOf v) =
      if v ∈ pdUnique ((startFiltered entries).map (fun e => e.volunteer)) then
        overlapConflictsFor (startFiltered entries) v
      else [] := by
  unfold find_conflicts
  rw [List.filter_append, filter_capacityConflicts, List.append_nil,
    filter_overlapConflicts]

theorem sortedEntriesFor_eq_nil (l : List ScheduleEntry) (v : String)
    (h : v ∉ pdUnique (l.map (fun e => e.volunteer))) : sortedEntriesFor l v = [] := by
  have hnil : l.filter (fun e => e.volunteer == v) = [] := by
    apply List.filter_eq_nil_iff.mpr
    intro e he hbeq
    apply h
    rw [pdUnique_mem]
    exact List.mem_map.mpr ⟨e, he, by simpa using hbeq⟩
  unfold sortedEntriesFor
  rw [hnil]
  rfl

/-- C4: over any collection, for each volunteer the emitted overlap conflicts
naming that volunteer are exactly one per adjacent pair `(prev, curr)` of the
volunteer's entries sorted by `datetime_start` with
`prev.datetime_end > curr.datetime_start` (the count equation), and each such
conflict carries the volunteer, the pair's date and start times, and both
event categories (the membership equivalence); in particular Bob, booked
10:00-11:00 and 10:30-11:30 on one date, yields exactly one overlap message
naming Bob, and a three-entry chain whose two adjacent pairs both overlap
yields exactly those two messages. -/
theorem overlap_adjacent_pair_detection :
    (∀ (entries : List ScheduleEntry) (v : String),
      ((find_conflicts entries).filter (isOverlapOf v)).length =
        ((sortedEntriesFor (startFiltered entries) v).zip
          (sortedEntriesFor (startFiltered entries) v).tail).countP
          (fun pc => pdGt pc.1.datetime_end pc.2.datetime_start)) ∧
    (∀ (entries : List ScheduleEntry) (v : String) (c : Conflict),
      (c ∈ find_conflicts entries ∧ isOverlapOf v c = true) ↔
        ∃ pc ∈ (sortedEntriesFor (startFiltered entries) v).zip
            (sortedEntriesFor (startFiltered entries) v).tail,
          pdGt pc.1.datetime_end pc.2.datetime_start = true ∧
          c = Conflict.overlap v pc.1.date pc.1.start_time pc.2.start_time
                pc.1.type pc.2.type) ∧
    find_conflicts [entry_bob_A, entry_bob_B] =
      [.overlap "Bob" "2024-06-01" "10:00" "10:30" "course" "course"] ∧
    find_conflict_messages [entry_bob_A, entry_bob_B] =
      ["Bob has overlapping bookings on 2024-06-01 from 10:00 to 10:30 (course → course)"] ∧
    find_conflicts [entry_W1, entry_W2, entry_W3] =
      [.overlap "W" "2024-06-02" "10:00" "10:30" "course" "course",
       .overlap "W" "2024-06-02" "10:30" "11:15" "course" "course"] := by
  refine ⟨?_, ?_, by decide, by decide, by decide⟩
  · intro entries v
    rw [filter_find_conflicts]
    by_cases hv : v ∈ pdUnique ((startFiltered entries).map (fun e => e.volunteer))
    · rw [if_pos hv, overlapConflictsFor_length]
    · rw [if_neg hv, sortedEntriesFor_eq_nil _ _ hv]
      rfl
  · intro entries v c
    constructor
    · rintro ⟨hc, hov⟩
      have hcf : c ∈ (find_conflicts entries).filter (isOverlapOf v) :=
        List.mem_filter.mpr ⟨hc, hov⟩
      rw [filter_find_conflicts] at hcf
      by_cases hv : v ∈ pdUnique ((startFiltered entries).map (fun e => e.volunteer))
      · rw [if_pos hv] at hcf
        obtain ⟨pc, hpc, heq⟩ := List.mem_filterMap.mp hcf
        split at heq
        · next hcond =>
          simp only [Option.some.injEq] at heq
          exact ⟨pc, hpc, hcond, heq.symm⟩
        · exact absurd heq (by simp)
      · rw [if_neg hv] at hcf
        cases hcf
    · rintro ⟨pc, hpc, hcond, rfl⟩
      have hsub := (List.of_mem_zip hpc).1
      unfold sortedEntriesFor at hsub
      have hmem1 : pc.1 ∈ (startFiltered entries).filter (fun e => e.volunteer == v) :=
        (sortBy_mem _ _ _).mp hsub
      have hv1 : pc.1.volunteer = v := by
        have hb := (List.mem_filter.mp hmem1).2
        simpa using hb
      have hin : pc.1 ∈ startFiltered entries := (List.mem_filter.mp hmem1).1
      have hvmem : v ∈ pdUnique ((startFiltered entries).map (fun e => e.volunteer)) := by
        rw [pdUnique_mem]
        exact List.mem_map.mpr ⟨pc.1, hin, hv1⟩
      refine ⟨?_, by simp [isOverlapOf]⟩
      unfold find_conflicts
      apply List.mem_append_left
      unfold overlapConflicts
      apply List.mem_flatMap.mpr
      refine ⟨v, hvmem, ?_⟩
      apply List.mem_filterMap.mpr
      exact ⟨pc, hpc, by rw [if_pos hcond]⟩

/-- Witness for C4: the membership equivalence applied to Bob's adjacent
pair produces Bob's overlap message in the checker's output. -/
theorem overlap_adjacent_pair_detection_witness :
    Conflict.overlap "Bob" "2024-06-01" "10:00" "10:30" "course" "course" ∈
        find_conflicts [entry_bob_A, entry_bob_B] ∧
      isOverlapOf "Bob"
        (Conflict.overlap "Bob" "2024-06-01" "10:00" "10:30" "course" "course") = true :=
  (overlap_adjacent_pair_detection.2.1 [entry_bob_A, entry_bob_B] "Bob" _).mpr
    ⟨(entry_bob_A, entry_bob_B), by decide, by decide, by decide⟩

/-- The capacity computation restricted the way the claim describes it: only
entries whose interval is fully non-null (both `datetime_start` and
`datetime_end` parsed) are counted. -/
def capacityConflictsSpec (entries : List ScheduleEntry) : List Conflict :=
  capacityConflicts (entries.filter (fun e => e.datetime_start.isSome && e.datetime_end.isSome))

-- A grg session with three distinct volunteers, one of whose entries has an
-- unparseable end time (null datetime_end) but a valid datetime_start.
def entry_X : ScheduleEntry :=
  { event_id := "GRG001", volunteer := "X", type := "GRG", date := "2024-06-01",
    start_time := "10:00", end_time := "11:00",
    datetime_start := some 600, datetime_end := some 660 }

def entry_Y : ScheduleEntry :=
  { event_id := "GRG001", volunteer := "Y", type := "GRG", date := "2024-06-01",
    start_time := "10:00", end_time := "11:00",
    datetime_start := some 600, datetime_end := some 660 }

def entry_Z : ScheduleEntry :=
  { event_id := "GRG001", volunteer := "Z", type := "grg", date := "2024-06-01",
    start_time := "10:00", end_time := "junk",
    datetime_start := some 600, datetime_end := none }

/-- Counterexample to C5 as stated: entry Z has a null interval (its
`datetime_end` did not parse), so a capacity check over non-null-interval
entries only would see 2 distinct volunteers and stay silent — but the code
counts Z and emits an overbooking conflict with count 3. -/
theorem capacity_nonnull_interval_counterexample :
    entry_Z.datetime_start.isSome = true ∧ entry_Z.datetime_end = none ∧
    capacityConflictsSpec [entry_X, entry_Y, entry_Z] = [] ∧
    find_conflicts [entry_X, entry_Y, entry_Z] = [.overbook "GRG001" "2024-06-01" 3] := by
  decide

theorem overbook_not_mem_overlapConflicts (entries : List ScheduleEntry)
    (eid d : String) (c : Nat) :
    Conflict.overbook eid d c ∉ overlapConflicts entries := by
  intro h
  obtain ⟨name, -, hin⟩ := List.mem_flatMap.mp h
  obtain ⟨pc, -, heq⟩ := List.mem_filterMap.mp hin
  split at heq
  · exact absurd heq (by simp)
  · exact absurd heq (by simp)

theorem mem_capacityConflicts_iff (entries : List ScheduleEntry)
    (eid d : String) (c : Nat) :
    Conflict.overbook eid d c ∈ capacityConflicts entries ↔
      ((eid, d) ∈ grgKeys entries ∧ c = nuniqueVolunteers entries (eid, d) ∧ 2 < c) := by
  unfold capacityConflicts
  rw [List.mem_filterMap]
  constructor
  · rintro ⟨k, hk, heq⟩
    split at heq
    · next hg =>
      simp only [Option.some.injEq] at heq
      obtain ⟨h1, h2, h3⟩ := Conflict.overbook.inj heq
      have hkey : k = (eid, d) := by
        rw [← h1, ← h2]
      rw [← hkey, ← h3]
      exact ⟨hk, rfl, hg⟩
    · exact absurd heq (by simp)
  · rintro ⟨hmem, hc, hlt⟩
    refine ⟨(eid, d), hmem, ?_⟩
    rw [if_pos (by omega)]
    rw [← hc]

theorem capacityConflicts_nodup (entries : List ScheduleEntry) :
    (capacityConflicts entries).Nodup := by
  unfold capacityConflicts
  apply List.Nodup.filterMap
  · intro a a' b hb hb'
    have ha : (if nuniqueVolunteers entries a > 2 then
        some (Conflict.overbook a.1 a.2 (nuniqueVolunteers entries a)) else none) = some b :=
      hb
    have ha' : (if nuniqueVolunteers entries a' > 2 then
        some (Conflict.overbook a'.1 a'.2 (nuniqueVolunteers entries a')) else none) = some b :=
      hb'
    split at ha
    · split at ha'
      · simp only [Option.some.injEq] at ha ha'
        rw [← ha] at ha'
        obtain ⟨h1, h2, -⟩ := Conflict.overbook.inj ha'
        exact (Prod.ext h1 h2).symm
      · exact absurd ha' (by simp)
    · exact absurd ha (by simp)
  · exact sortBy_nodup keyLe _ (pdUnique_nodup _)

/-- C5 amended: the capacity check runs over the entries surviving the
dashboard filter — those with a non-null `datetime_start`; a null
`datetime_end` does not exclude an entry.  Over those entries it groups
category `grg` (case-insensitively) by `(event_id, date)`, counts distinct
volunteers, and emits exactly one overbooking conflict for each group whose
count exceeds 2 and none for the others. -/
theorem capacity_overbooking_characterization :
    ∀ (entries : List ScheduleEntry) (eid d : String) (c : Nat),
      (((eid, d) ∈ grgKeys (startFiltered entries) ∧
          c = nuniqueVolunteers (startFiltered entries) (eid, d) ∧ 2 < c) →
        (find_conflicts entries).count (.overbook eid d c) = 1) ∧
      (¬((eid, d) ∈ grgKeys (startFiltered entries) ∧
          c = nuniqueVolunteers (startFiltered entries) (eid, d) ∧ 2 < c) →
        (find_conflicts entries).count (.overbook eid d c) = 0) := by
  intro entries eid d c
  have hcount0 : (overlapConflicts (startFiltered entries)).count (.overbook eid d c) = 0 :=
    List.count_eq_zero.mpr (overbook_not_mem_overlapConflicts (startFiltered entries) eid d c)
  constructor
  · intro hcond
    unfold find_conflicts
    rw [List.count_append, hcount0]
    have hmem := (mem_capacityConflicts_iff (startFiltered entries) eid d c).mpr hcond
    rw [List.count_eq_one_of_mem (capacityConflicts_nodup (startFiltered entries)) hmem]
  · intro hcond
    unfold find_conflicts
    rw [List.count_append, hcount0]
    have hnm : Conflict.overbook eid d c ∉ capacityConflicts (startFiltered entries) :=
      fun hm => hcond ((mem_capacityConflicts_iff (startFiltered entries) eid d c).mp hm)
    rw [List.count_eq_zero.mpr hnm]

/-- Witness for C5's amended statement: the three-volunteer grg group yields
exactly one overbooking conflict with count 3. -/
theorem capacity_overbooking_characterization_witness :
    (find_conflicts [entry_X, entry_Y, entry_Z]).count (.overbook "GRG001" "2024-06-01" 3) = 1 :=
  (capacity_overbooking_characterization [entry_X, entry_Y, entry_Z]
    "GRG001" "2024-06-01" 3).1 (by decide)

/-- A row of the Volunteers table; a blank alias cell loads as `none`. -/
structure Volunteer where
  first_name : String
  last_name : String
  alias_ : Option String
deriving DecidableEq

/-- Line 15: `full_name = first_name.fillna('').strip() + " " + last_name.fillna('').strip()`. -/
def full_name (v : Volunteer) : String :=
  pyStrip v.first_name ++ " " ++ pyStrip v.last_name

/-- Lines 41-42: the key/value pairs of
`pd.Series(full_name, index=alias.fillna(full_name))`, in row order. -/
def name_map (vols : List Volunteer) : List (String × String) :=
  vols.map (fun v => (v.alias_.getD (full_name v), full_name v))

/-- Python dict semantics of `to_dict()` then `.map`: a dict built from pairs keeps the last
value written for a key; lookup misses give `none` (becoming `NaN`). -/
def dict_get (m : List (String × String)) (k : String) : Option String :=
  m.foldl (fun acc kv => if kv.1 = k then some kv.2 else acc) none

/-- Line 43:
`assignments["volunteer"].str.strip().map(name_map).fillna(assignments["volunteer"])`
— strip the raw name, look it up, and on a miss fall back to the original
raw value (not the stripped one). -/
def resolve_volunteer_name (vols : List Volunteer) (raw : String) : String :=
  match dict_get (name_map vols) (pyStrip raw) with
  | some full => full
  | none => raw

theorem dict_get_loop_const (k val : String) :
    ∀ (m : List (String × String)) (acc : Option String),
      (acc = none → ∃ kv ∈ m, kv.1 = k) → (acc = some val ∨ acc = none) →
      (∀ kv ∈ m, kv.1 = k → kv.2 = val) →
      m.foldl (fun acc kv => if kv.1 = k then some kv.2 else acc) acc = some val := by
  intro m
  induction m with
  | nil =>
    intro acc hex hacc _
    rcases hacc with h | h
    · exact h
    · obtain ⟨kv, hkv, -⟩ := hex h
      cases hkv
  | cons kv m ih =>
    intro acc hex hacc hval
    show m.foldl _ (if kv.1 = k then some kv.2 else acc) = some val
    by_cases hk : kv.1 = k
    · rw [if_pos hk]
      refine ih (some kv.2) (by simp) ?_ (fun kv' h' hk' => hval kv' (List.mem_cons_of_mem kv h') hk')
      left
      rw [hval kv (List.mem_cons_self kv m) hk]
    · rw [if_neg hk]
      refine ih acc ?_ hacc (fun kv' h' hk' => hval kv' (List.mem_cons_of_mem kv h') hk')
      intro hn
      obtain ⟨kv', hkv', hk'⟩ := hex hn
      rcases List.mem_cons.mp hkv' with rfl | hmem
      · exact absurd hk' hk
      · exact ⟨kv', hmem, hk'⟩

-- a volunteer with an alias, and one with a blank alias
def vol_ann : Volunteer := { first_name := "Ann", last_name := "Lee", alias_ := some "annie" }

def vol_bea : Volunteer := { first_name := "Bea", last_name := "Ng", alias_ := none }

/-- C10: volunteer-name resolution strips the raw assignment name before the
alias lookup; a volunteer with a blank alias is keyed by their own full name,
so full names resolve to themselves (when no other row reuses that key for a
different name); and an unmatched name keeps its original raw value with its
whitespace intact, not the stripped form. -/
theorem resolve_volunteer_name_behavior :
    (∀ (vols : List Volunteer) (raw1 raw2 : String),
      pyStrip raw1 = pyStrip raw2 →
      (dict_get (name_map vols) (pyStrip raw1)).isSome →
      resolve_volunteer_name vols raw1 = resolve_volunteer_name vols raw2) ∧
    (∀ (vols : List Volunteer) (v : Volunteer),
      v ∈ vols → v.alias_ = none →
      (∀ w ∈ vols, w.alias_.getD (full_name w) = full_name v → full_name w = full_name v) →
      pyStrip (full_name v) = full_name v →
      resolve_volunteer_name vols (full_name v) = full_name v) ∧
    (∀ (vols : List Volunteer) (raw : String),
      dict_get (name_map vols) (pyStrip raw) = none →
      resolve_volunteer_name vols raw = raw) ∧
    resolve_volunteer_name [vol_ann] "  Cy  Day " = "  Cy  Day " := by
  refine ⟨?_, ?_, ?_, by decide⟩
  · intro vols raw1 raw2 heq hsome
    unfold resolve_volunteer_name
    rw [heq] at hsome ⊢
    cases h : dict_get (name_map vols) (pyStrip raw2) with
    | none => rw [h] at hsome; cases hsome
    | some full => rfl
  · intro vols v hv halias hkey hstrip
    have hget : dict_get (name_map vols) (full_name v) = some (full_name v) := by
      apply dict_get_loop_const (full_name v) (full_name v)
      · intro _
        refine ⟨(v.alias_.getD (full_name v), full_name v), List.mem_map_of_mem _ hv, ?_⟩
        rw [halias]
        rfl
      · right; rfl
      · intro kv hkv hk
        obtain ⟨w, hw, rfl⟩ := List.mem_map.mp hkv
        exact hkey w hw hk
    unfold resolve_volunteer_name
    rw [hstrip, hget]
  · intro vols raw hnone
    unfold resolve_volunteer_name
    rw [hnone]

/-- Witness for C10: a blank-alias volunteer's full name resolves to itself. -/
theorem resolve_volunteer_name_behavior_witness :
    resolve_volunteer_name [vol_bea] (full_name vol_bea) = full_name vol_bea :=
  resolve_volunteer_name_behavior.2.1 [vol_bea] vol_bea (by decide)
    rfl (by decide) (by decide)
